import Mathlib

attribute [local semireducible] Rat.add Rat.sub Rat.mul Rat.inv

/-!
Verification of the Reflector-Ride trip-processing pipeline.

This file shallowly embeds the core logic of the repository:

* the per-trip segment/speed estimator of `integrated_processor.py` /
  `combined_processor.py` (`process_geojson_file`, step 3-5: the two-cursor
  scan over sample-sorted points, plausibility guards, the 40 km/h cap and
  the emission condition),
* the road-quality lookup (`map_road_quality_to_segments`) and the
  insufficient-data gate around the external `calculate_road_quality`,
* the wheel-diameter resolver (`get_wheel_diameter`),
* the cross-trip aggregator of `aggregate_route.py`
  (`create_segment_key`, `aggregate_route_speeds`).

Modelling conventions:

* Python floating-point arithmetic is modelled exactly over `ℚ`;
  `math.pi` is the rational value of the IEEE-754 double `math.pi`.
* Python `round(x, p)` (round-half-to-even to `p` decimals) is `pyRound`.
* The haversine distance (`haversine_distance`) uses transcendental
  functions, so the scan is parameterised over the geodesic distance
  function `gdist`; every theorem below holds for the actual haversine
  because nothing depends on its particular values.
* The external scorer `calculate_road_quality` (imported from
  `road_quality_calculator`, not part of this repository) is a parameter
  `scorer`; only the `len(acc) > 200` gate around it is embedded.
* `np.argmin` over `|time_windows - sample|` is `argminAbs`, the first
  index attaining the minimum absolute difference, which is `np.argmin`'s
  documented tie-breaking.
-/

/-- Round-half-to-even to an integer, the rounding used by Python `round`. -/
def rhe (x : ℚ) : ℤ :=
  if x - ⌊x⌋ < 1 / 2 then ⌊x⌋
  else if 1 / 2 < x - ⌊x⌋ then ⌊x⌋ + 1
  else if Even ⌊x⌋ then ⌊x⌋ else ⌊x⌋ + 1

/-- Python `round(x, p)`: round-half-to-even at `p` decimal places. -/
def pyRound (x : ℚ) (p : ℕ) : ℚ :=
  (rhe (x * 10 ^ p) : ℚ) / 10 ^ p

/-- The exact rational value of the IEEE-754 double `math.pi`. -/
def pyPi : ℚ := 884279719003555 / 281474976710656

/-- `SAMPLE_RATE_HZ = 50`; `SECONDS_PER_SAMPLE = 1 / SAMPLE_RATE_HZ`. -/
def SECONDS_PER_SAMPLE : ℚ := 1 / 50

/-- `DEFAULT_WHEEL_DIAMETER_MM = 711`. -/
def DEFAULT_WHEEL_DIAMETER_MM : ℚ := 711

/-- A validated point of `process_geojson_file` step 3: non-zero coordinates,
`samples`/`hrot` via `safe_int`, `time` the optional wall-clock timestamp in
seconds (`parse_time` result; `none` when missing or unparseable). -/
structure Point where
  lon : ℚ
  lat : ℚ
  marker : ℤ
  samples : ℤ
  hrot : ℤ
  time : Option ℚ
  original_speed : Option ℚ
deriving DecidableEq

/-- One emitted feature of `process_geojson_file` step 5: the two endpoint
coordinates and the properties dictionary (numeric fields rounded exactly as
in the source). -/
structure SpeedSegment where
  startLon : ℚ
  startLat : ℚ
  endLon : ℚ
  endLat : ℚ
  speed : ℚ
  road_quality : ℤ
  marker : ℤ
  hrot_diff : ℤ
  sample_diff : ℤ
  time_diff_s : ℚ
  gps_distance_m : ℚ
  original_speed : Option ℚ
  wheel_diameter_mm : ℚ
deriving DecidableEq

/-- Elapsed duration of a candidate segment: the difference of wall-clock
timestamps when both are present, otherwise the sample-index difference
times `SECONDS_PER_SAMPLE`. -/
def segDuration (p q : Point) : ℚ :=
  match p.time, q.time with
  | some a, some b => b - a
  | _, _ => ((q.samples - p.samples : ℤ) : ℚ) * SECONDS_PER_SAMPLE

/-- Raw computed speed in km/h: `revolutions = hrot_diff / 2`,
`distance = revolutions * circumference`, `speed = distance / duration * 3.6`,
and `0` unless `hrot_diff > 0 and duration > 0`. -/
def rawSpeed (circ : ℚ) (hd : ℤ) (td : ℚ) : ℚ :=
  if 0 < hd ∧ 0 < td then (((hd : ℚ) / 2) * circ / td) * (36 / 10) else 0

/-- The 40 km/h safety cap: `if speed_kmh > 40: speed_kmh = 40`. -/
def capSpeed (x : ℚ) : ℚ := if 40 < x then 40 else x

/-- Output of the (external) road-quality scorer: parallel lists of discrete
levels and representative sample indices. -/
structure QualityData where
  road_quality : List ℤ
  time_windows : List ℤ
deriving DecidableEq

/-- First index attaining the minimum of `|entry - q|`, as `np.argmin` of
`np.abs(time_windows - sample_idx)` computes it. -/
def argminAbs (q : ℤ) : List ℤ → ℕ
  | [] => 0
  | x :: xs =>
    match xs with
    | [] => 0
    | _ :: _ =>
      let r := argminAbs q xs
      if |xs.getD r 0 - q| < |x - q| then r + 1 else 0

/-- `get_quality_at_sample` of `map_road_quality_to_segments`: `0` when there
are no windows, otherwise the level of the window whose representative index
is closest to the queried sample index. -/
def get_quality_at_sample (qd : QualityData) (sample_idx : ℤ) : ℤ :=
  if qd.time_windows = [] then 0
  else qd.road_quality.getD (argminAbs sample_idx qd.time_windows) 0

/-- The road-quality lookup the scan applies at a segment midpoint:
`quality_lookup(midpoint_sample) if quality_lookup else 0`. -/
def qlValue (ql : Option (ℤ → ℤ)) (m : ℤ) : ℤ :=
  match ql with
  | some f => f m
  | none => 0

/-- One iteration body of the scan (`process_geojson_file`, lines 333-400):
duration guard, rotation-based speed, GPS-jump guard, 40 km/h cap, quality
lookup at the midpoint sample index, and the emission condition. `gdist` is
the geodesic distance function (`haversine_distance` in the source). -/
def candidate (circ diam : ℚ) (gdist : ℚ → ℚ → ℚ → ℚ → ℚ)
    (ql : Option (ℤ → ℤ)) (p q : Point) : Option SpeedSegment :=
  let td := segDuration p q
  if td ≤ 0 ∨ 600 < td then none
  else
    let hd := q.hrot - p.hrot
    let sp := rawSpeed circ hd td
    let g := gdist p.lon p.lat q.lon q.lat
    if 1000 < g then none
    else
      let spc := capSpeed sp
      let rq := qlValue ql ((p.samples + q.samples).fdiv 2)
      if (p.lon ≠ q.lon ∨ p.lat ≠ q.lat) ∧ spc < 100 then
        some { startLon := p.lon, startLat := p.lat,
               endLon := q.lon, endLat := q.lat,
               speed := pyRound spc 1,
               road_quality := rq,
               marker := p.marker,
               hrot_diff := hd,
               sample_diff := q.samples - p.samples,
               time_diff_s := pyRound td 3,
               gps_distance_m := pyRound g 1,
               original_speed := p.original_speed,
               wheel_diameter_mm := diam }
      else none

/-- The two-cursor scan, fuelled for structural recursion.  Each loop
iteration moves the start cursor to the candidate's end point (`i = j`), so
the remaining list shrinks by at least one element per iteration and an
initial fuel of `pts.length` never runs out. -/
def scanFuel (circ diam : ℚ) (gdist : ℚ → ℚ → ℚ → ℚ → ℚ)
    (ql : Option (ℤ → ℤ)) : ℕ → List Point → List SpeedSegment
  | 0, _ => []
  | _ + 1, [] => []
  | fuel + 1, p :: rest =>
    match rest.dropWhile (fun x => x.hrot == p.hrot) with
    | [] => []
    | q :: rest2 =>
      match candidate circ diam gdist ql p q with
      | some s => s :: scanFuel circ diam gdist ql fuel (q :: rest2)
      | none => scanFuel circ diam gdist ql fuel (q :: rest2)

/-- The segment/speed estimator over an index-sorted point list. -/
def scan (circ diam : ℚ) (gdist : ℚ → ℚ → ℚ → ℚ → ℚ)
    (ql : Option (ℤ → ℤ)) (pts : List Point) : List SpeedSegment :=
  scanFuel circ diam gdist ql pts.length pts

instance : DecidableRel (fun a b : Point => a.samples ≤ b.samples) :=
  fun a b => inferInstanceAs (Decidable (a.samples ≤ b.samples))

/-- `points.sort(key=lambda p: p['samples'])` — a stable ascending sort. -/
def sortPoints (pts : List Point) : List Point :=
  List.insertionSort (fun a b => a.samples ≤ b.samples) pts

/-- The insufficient-data gate around the external scorer:
`if len(acc_y_data) > 200: road_quality_data = calculate_road_quality(...)`,
otherwise no quality data is produced. -/
def mkRoadQualityData (acc : List ℚ) (scorer : List ℚ → Option QualityData) :
    Option QualityData :=
  if 200 < acc.length then scorer acc else none

/-- Steps 2-5 of `process_geojson_file` after point extraction: resolve wheel
circumference from the diameter, run the quality gate, build the lookup and
scan the sorted points. -/
def processTripSegments (diam : ℚ) (gdist : ℚ → ℚ → ℚ → ℚ → ℚ)
    (acc : List ℚ) (scorer : List ℚ → Option QualityData)
    (pts : List Point) : List SpeedSegment :=
  let circ := diam / 1000 * pyPi
  let rqd := mkRoadQualityData acc scorer
  let ql := rqd.map (fun qd s => get_quality_at_sample qd s)
  scan circ diam gdist ql (sortPoints pts)

/-- A Python string as `parse_wheel_diameter` observes it: its truthiness,
`float` of the first whitespace token after stripping leading/trailing commas
and blanks (when that parses), and `float` of the stripped string itself. -/
structure PyStr where
  nonempty : Bool
  firstTok : Option ℚ
  whole : Option ℚ
deriving DecidableEq

/-- A metadata value: absent/`None`, a JSON number, or a string. -/
inductive PyVal where
  | vnone
  | vnum (q : ℚ)
  | vstr (s : PyStr)
deriving DecidableEq

/-- Python truthiness of a metadata value. -/
def pyTruthy : PyVal → Bool
  | .vnone => false
  | .vnum q => decide (q ≠ 0)
  | .vstr s => s.nonempty

/-- Python `a or b`. -/
def pyOr (a b : PyVal) : PyVal := if pyTruthy a then a else b

/-- `parse_wheel_diameter`: `None` for falsy input; a string's first numeric
token is inches and converted by `* 25.4`, otherwise `float` of the whole
string; a number is taken as millimetres. -/
def parse_wheel_diameter (v : PyVal) : Option ℚ :=
  if pyTruthy v = false then none
  else match v with
    | .vstr s =>
      match s.firstTok with
      | some d => some (d * (254 / 10))
      | none => s.whole
    | .vnum q => some q
    | .vnone => none

/-- `parse_wheel_diameter` followed by the caller's `if diameter:` check. -/
def truthyDiameter (v : PyVal) : Option ℚ :=
  match parse_wheel_diameter v with
  | some d => if d = 0 then none else some d
  | none => none

/-- A previously saved trip-metadata record: the flat `WheelDiam` /
`Wheel mm` entries and the optional nested `metadata` object's entries. -/
structure TripMeta where
  wheelDiam : PyVal
  wheelMm : PyVal
  hasNested : Bool
  nestedWheelDiam : PyVal
  nestedWheelMm : PyVal
deriving DecidableEq

/-- An entry of the saved-metadata store: Python checks
`isinstance(trip_meta, dict)` and skips non-dict entries. -/
inductive SavedEntry where
  | notDict
  | isDict (m : TripMeta)
deriving DecidableEq

/-- The current file's metadata, as `get_wheel_diameter` observes it:
truthiness of the dict and its `WheelDiam` / `Wheel mm` entries. -/
structure FileMeta where
  isNonempty : Bool
  wheelDiam : PyVal
  wheelMm : PyVal
deriving DecidableEq

/-- The wheel value chosen from a saved entry: flat keys first, then the
nested `metadata` object when the flat value is falsy. -/
def savedWheelValue : SavedEntry → PyVal
  | .notDict => .vnone
  | .isDict m =>
    let wv := pyOr m.wheelDiam m.wheelMm
    if pyTruthy wv = false ∧ m.hasNested = true then
      pyOr m.nestedWheelDiam m.nestedWheelMm
    else wv

/-- `get_wheel_diameter`: current file's metadata first, then the saved
trip metadata, then the fixed default of 711 mm. -/
def get_wheel_diameter (fm : FileMeta) (saved : Option SavedEntry) : ℚ :=
  match (if fm.isNonempty then truthyDiameter (pyOr fm.wheelDiam fm.wheelMm)
         else none) with
  | some d => d
  | none =>
    match saved with
    | some e =>
      match truthyDiameter (savedWheelValue e) with
      | some d => d
      | none => DEFAULT_WHEEL_DIAMETER_MM
    | none => DEFAULT_WHEEL_DIAMETER_MM

/-- `round_coordinate` with the default precision 4. -/
def round_coordinate (c : ℚ) : ℚ := pyRound c 4

/-- Python tuple comparison `start_rounded > end_rounded` (lexicographic). -/
def pairGtBool (a b : ℚ × ℚ) : Bool :=
  decide (b.1 < a.1) || (decide (a.1 = b.1) && decide (b.2 < a.2))

/-- `create_segment_key`: round both endpoints to 4 decimals and order the
rounded pair so that travel direction does not change the key. -/
def create_segment_key (coords : List (ℚ × ℚ)) : (ℚ × ℚ) × (ℚ × ℚ) :=
  let s := coords.headD (0, 0)
  let e := coords.getLastD (0, 0)
  let sr := (round_coordinate s.1, round_coordinate s.2)
  let er := (round_coordinate e.1, round_coordinate e.2)
  if pairGtBool sr er then (er, sr) else (sr, er)

/-- One input feature of `aggregate_route_speeds`: its coordinate list, its
`Speed` property and whether its geometry is a `LineString`. -/
structure SegIn where
  coords : List (ℚ × ℚ)
  speed : ℚ
  isLine : Bool
deriving DecidableEq

/-- A feature contributes a sample unless it is skipped: non-`LineString`
geometries and zero speeds (stopped segments) are skipped. -/
def contributes (s : SegIn) : Bool := s.isLine && decide (s.speed ≠ 0)

/-- One accumulation bucket of `segment_data`: the key, the first-seen
coordinates and the list of contributing speeds in arrival order. -/
structure Bucket where
  key : (ℚ × ℚ) × (ℚ × ℚ)
  coords : List (ℚ × ℚ)
  speeds : List ℚ
deriving DecidableEq

/-- Append one speed sample to the bucket with the given key, creating the
bucket (with the first-seen coordinates) when absent. -/
def insertSample (k : (ℚ × ℚ) × (ℚ × ℚ)) (cs : List (ℚ × ℚ)) (v : ℚ) :
    List Bucket → List Bucket
  | [] => [⟨k, cs, [v]⟩]
  | b :: bs =>
    if b.key = k then ⟨b.key, b.coords, b.speeds ++ [v]⟩ :: bs
    else b :: insertSample k cs v bs

/-- The accumulation loop of `aggregate_route_speeds`. -/
def collectAux : List Bucket → List SegIn → List Bucket
  | acc, [] => acc
  | acc, s :: rest =>
    if contributes s then
      collectAux (insertSample (create_segment_key s.coords) s.coords s.speed acc)
        rest
    else collectAux acc rest

/-- All buckets accumulated from the input features. -/
def collect (l : List SegIn) : List Bucket := collectAux [] l

/-- Python `sorted(speeds)`. -/
def sortSpeeds (l : List ℚ) : List ℚ := List.insertionSort (· ≤ ·) l

/-- Python `min` of a non-empty list (0 for the empty list, unreachable). -/
def listMin : List ℚ → ℚ
  | [] => 0
  | x :: xs => xs.foldl min x

/-- Python `max` of a non-empty list (0 for the empty list, unreachable). -/
def listMax : List ℚ → ℚ
  | [] => 0
  | x :: xs => xs.foldl max x

/-- One output feature of the aggregator. -/
structure AggFeature where
  coords : List (ℚ × ℚ)
  avg_speed : ℚ
  min_speed : ℚ
  max_speed : ℚ
  median_speed : ℚ
  sample_count : ℕ
  speed_variance : ℚ
deriving DecidableEq

/-- The per-bucket statistics of `aggregate_route_speeds`: average, min, max,
`sorted(speeds)[len(speeds) // 2]` as median, sample count, and max - min as
the dispersion figure, each rounded to one decimal. -/
def mkFeature (b : Bucket) : AggFeature :=
  let n := b.speeds.length
  let mn := listMin b.speeds
  let mx := listMax b.speeds
  { coords := b.coords,
    avg_speed := pyRound (b.speeds.sum / (n : ℚ)) 1,
    min_speed := pyRound mn 1,
    max_speed := pyRound mx 1,
    median_speed := pyRound ((sortSpeeds b.speeds).getD (n / 2) 0) 1,
    sample_count := n,
    speed_variance := pyRound (mx - mn) 1 }

/-- `aggregate_route_speeds`: accumulate all contributing samples, then emit
statistics for every bucket with at least two samples. -/
def aggregate_route_speeds (l : List SegIn) : List AggFeature :=
  (collect l).filterMap
    (fun b => if b.speeds.length < 2 then none else some (mkFeature b))

/-- The list of speeds the input features contribute to key `k`, in order. -/
def speedsOf (k : (ℚ × ℚ) × (ℚ × ℚ)) (l : List SegIn) : List ℚ :=
  l.filterMap (fun s =>
    if contributes s = true ∧ create_segment_key s.coords = k then some s.speed
    else none)

/-- The speeds recorded in the bucket with key `k`, `[]` when absent. -/
def speedsAt (k : (ℚ × ℚ) × (ℚ × ℚ)) (bs : List Bucket) : List ℚ :=
  match bs.find? (fun b => decide (b.key = k)) with
  | some b => b.speeds
  | none => []

/-- Modelled from the spec: the lower-median convention, "the smaller of the
two middle elements" of the sorted sequence for even counts (the claim's
reading of the median statistic). -/
def lowerMedianSpec (speeds : List ℚ) : ℚ :=
  if speeds.length % 2 = 0 then
    (sortSpeeds speeds).getD (speeds.length / 2 - 1) 0
  else (sortSpeeds speeds).getD (speeds.length / 2) 0

/-- A bucket is well formed when its key is the key of its stored coordinates
and it holds at least one sample. -/
def goodBucket (b : Bucket) : Prop :=
  create_segment_key b.coords = b.key ∧ b.speeds ≠ []

/-- The keys of a bucket list. -/
def bkeys (bs : List Bucket) : List ((ℚ × ℚ) × (ℚ × ℚ)) := bs.map Bucket.key

/-- A geodesic distance instantiation used for concrete test inputs (its
values are irrelevant to every property proved below). -/
def gdist0 : ℚ → ℚ → ℚ → ℚ → ℚ := fun _ _ _ _ => 0

/-- Concrete point: start of the demonstration trips. -/
def pA : Point := ⟨4, 52, 0, 0, 0, none, none⟩

/-- Concrete point 50 samples later with two more rotation pulses. -/
def pB : Point := ⟨4001 / 1000, 52, 0, 50, 2, none, none⟩

/-- Concrete point with a rotation counter that moved backwards. -/
def pA2 : Point := ⟨4, 52, 0, 0, 10, none, none⟩

/-- End point of the backwards-counter trip. -/
def pB2 : Point := ⟨4001 / 1000, 52, 0, 50, 8, none, none⟩

/-- The segment the scan emits for the trip `[pA, pB]` with circumference
12.5 m (raw speed 45 km/h, capped to 40). -/
def demoSeg : SpeedSegment :=
  ⟨4, 52, 4001 / 1000, 52, 40, 0, 0, 2, 50, 1, 0, none, 711⟩

/-- Aggregator input: one LineString with speed 10. -/
def segInA : SegIn := ⟨[(1, 2), (3, 4)], 10, true⟩

/-- Aggregator input: the same geometry with speed 20. -/
def segInB : SegIn := ⟨[(1, 2), (3, 4)], 20, true⟩

/-- A run in which one bucket receives exactly one sample. -/
def demoOne : List SegIn := [segInA]

/-- A run in which one bucket receives exactly two samples. -/
def demoTwo : List SegIn := [segInA, segInB]

/-- The single aggregated feature produced by `demoTwo`. -/
def demoAggFeature : AggFeature := ⟨[(1, 2), (3, 4)], 15, 10, 20, 20, 2, 10⟩

/-- Quality data with window indices 50/150/250 and levels 1/3/5. -/
def demoQD : QualityData := ⟨[1, 3, 5], [50, 150, 250]⟩

/-- File metadata carrying `WheelDiam = "26.0 inch"`. -/
def fm26 : FileMeta := ⟨true, .vstr ⟨true, some 26, none⟩, .vnone⟩

/-- Empty file metadata. -/
def fmEmpty : FileMeta := ⟨false, .vnone, .vnone⟩

/-- Saved metadata: flat numeric `WheelDiam = 650`. -/
def tmFlat650 : TripMeta := ⟨.vnum 650, .vnone, false, .vnone, .vnone⟩

/-- Saved metadata: nothing flat, nested numeric `WheelDiam = 700`. -/
def tmNested700 : TripMeta := ⟨.vnone, .vnone, true, .vnum 700, .vnone⟩

/-- Saved metadata: flat 650 and nested 999. -/
def tmBoth : TripMeta := ⟨.vnum 650, .vnone, true, .vnum 999, .vnone⟩

/-- A short acceleration channel (3 samples, below the 200-sample gate). -/
def accSmall : List ℚ := [0, 0, 0]

/-- A scorer that would report quality data if it were invoked. -/
def scorerDemo : List ℚ → Option QualityData := fun _ => some ⟨[5], [0]⟩

/-! ### Rounding and speed lemmas -/

theorem le_rhe (x : ℚ) : x - 1 / 2 ≤ (rhe x : ℚ) := by
  have h1 : (⌊x⌋ : ℚ) ≤ x := Int.floor_le x
  have h2 : x < ⌊x⌋ + 1 := Int.lt_floor_add_one x
  unfold rhe
  split_ifs with hr1 hr2 hev <;> push_cast <;> linarith

theorem rhe_le (x : ℚ) : (rhe x : ℚ) ≤ x + 1 / 2 := by
  have h1 : (⌊x⌋ : ℚ) ≤ x := Int.floor_le x
  have h2 : x < ⌊x⌋ + 1 := Int.lt_floor_add_one x
  unfold rhe
  split_ifs with hr1 hr2 hev <;> push_cast <;> linarith

theorem pyRound1_nonneg {x : ℚ} (h : 0 ≤ x) : 0 ≤ pyRound x 1 := by
  unfold pyRound
  have hb := le_rhe (x * 10 ^ 1)
  have hx : (0 : ℚ) ≤ x * 10 ^ 1 := by positivity
  have hgt : (-1 : ℚ) < ((rhe (x * 10 ^ 1) : ℤ) : ℚ) := by
    generalize ((rhe (x * 10 ^ 1) : ℤ) : ℚ) = t at hb ⊢
    linarith
  have hzi : (-1 : ℤ) < rhe (x * 10 ^ 1) := by exact_mod_cast hgt
  have hz : (0 : ℤ) ≤ rhe (x * 10 ^ 1) := by omega
  have hq : (0 : ℚ) ≤ ((rhe (x * 10 ^ 1) : ℤ) : ℚ) := by exact_mod_cast hz
  positivity

theorem pyRound1_le_40 {x : ℚ} (h : x ≤ 40) : pyRound x 1 ≤ 40 := by
  unfold pyRound
  have hb := rhe_le (x * 10 ^ 1)
  have h10 : x * 10 ^ 1 ≤ 400 := by rw [pow_one]; linarith
  have hlt : ((rhe (x * 10 ^ 1) : ℤ) : ℚ) < 401 := by
    generalize ((rhe (x * 10 ^ 1) : ℤ) : ℚ) = t at hb ⊢
    linarith
  have hzi : rhe (x * 10 ^ 1) < 401 := by exact_mod_cast hlt
  have hz : rhe (x * 10 ^ 1) ≤ 400 := by omega
  have hq : ((rhe (x * 10 ^ 1) : ℤ) : ℚ) ≤ 400 := by exact_mod_cast hz
  rw [div_le_iff₀ (by norm_num)]
  generalize hg : ((rhe (x * 10 ^ 1) : ℤ) : ℚ) = t at hq ⊢
  linarith

theorem capSpeed_lt_100 (x : ℚ) : capSpeed x < 100 := by
  unfold capSpeed
  split_ifs with h
  · norm_num
  · linarith [not_lt.mp h]

theorem capSpeed_le_40 (x : ℚ) : capSpeed x ≤ 40 := by
  unfold capSpeed
  split_ifs with h
  · exact le_rfl
  · exact not_lt.mp h

theorem capSpeed_nonneg {x : ℚ} (h : 0 ≤ x) : 0 ≤ capSpeed x := by
  unfold capSpeed
  split_ifs with hx
  · norm_num
  · exact h

theorem rawSpeed_eq_zero {circ : ℚ} {hd : ℤ} {td : ℚ} (h : hd ≤ 0 ∨ td ≤ 0) :
    rawSpeed circ hd td = 0 := by
  unfold rawSpeed
  rw [if_neg]
  rcases h with h | h
  · exact fun hc => absurd hc.1 (not_lt.mpr h)
  · exact fun hc => absurd hc.2 (not_lt.mpr h)

theorem rawSpeed_pos {circ : ℚ} {hd : ℤ} {td : ℚ}
    (hc : 0 < circ) (hh : 0 < hd) (ht : 0 < td) : 0 < rawSpeed circ hd td := by
  unfold rawSpeed
  rw [if_pos ⟨hh, ht⟩]
  have hhq : (0 : ℚ) < (hd : ℚ) := by exact_mod_cast hh
  positivity

theorem rawSpeed_nonneg {circ : ℚ} (hc : 0 < circ) (hd : ℤ) (td : ℚ) :
    0 ≤ rawSpeed circ hd td := by
  unfold rawSpeed
  split_ifs with h
  · have hhq : (0 : ℚ) < (hd : ℚ) := by exact_mod_cast h.1
    have := h.2
    positivity
  · exact le_rfl

/-! ### Candidate and scan inversion -/

theorem candidate_inv {circ diam : ℚ} {gdist : ℚ → ℚ → ℚ → ℚ → ℚ}
    {ql : Option (ℤ → ℤ)} {p q : Point} {s : SpeedSegment}
    (h : candidate circ diam gdist ql p q = some s) :
    0 < segDuration p q ∧ segDuration p q ≤ 600 ∧
    gdist p.lon p.lat q.lon q.lat ≤ 1000 ∧
    (p.lon ≠ q.lon ∨ p.lat ≠ q.lat) ∧
    capSpeed (rawSpeed circ (q.hrot - p.hrot) (segDuration p q)) < 100 ∧
    s = { startLon := p.lon, startLat := p.lat, endLon := q.lon, endLat := q.lat,
          speed := pyRound (capSpeed (rawSpeed circ (q.hrot - p.hrot) (segDuration p q))) 1,
          road_quality := qlValue ql ((p.samples + q.samples).fdiv 2),
          marker := p.marker, hrot_diff := q.hrot - p.hrot,
          sample_diff := q.samples - p.samples,
          time_diff_s := pyRound (segDuration p q) 3,
          gps_distance_m := pyRound (gdist p.lon p.lat q.lon q.lat) 1,
          original_speed := p.original_speed, wheel_diameter_mm := diam } := by
  simp only [candidate] at h
  split_ifs at h with h1 h2 h3
  push_neg at h1 h2
  rw [Option.some_inj] at h
  exact ⟨h1.1, h1.2, h2, h3.1, h3.2, h.symm⟩

theorem dropWhile_head_false {α : Type} (pred : α → Bool) :
    ∀ (l : List α) (q : α) (r : List α), l.dropWhile pred = q :: r → pred q = false := by
  intro l
  induction l with
  | nil => intro q r h; simp [List.dropWhile] at h
  | cons x xs ih =>
    intro q r h
    by_cases hx : pred x
    · rw [List.dropWhile_cons_of_pos hx] at h
      exact ih q r h
    · rw [List.dropWhile_cons_of_neg hx] at h
      cases h
      exact Bool.of_not_eq_true hx

theorem mem_scanFuel_inv {circ diam : ℚ} {gdist : ℚ → ℚ → ℚ → ℚ → ℚ}
    {ql : Option (ℤ → ℤ)} :
    ∀ (fuel : ℕ) (pts : List Point) (s : SpeedSegment),
      s ∈ scanFuel circ diam gdist ql fuel pts →
      ∃ p q, q.hrot ≠ p.hrot ∧ candidate circ diam gdist ql p q = some s := by
  intro fuel
  induction fuel with
  | zero => intro pts s h; simp [scanFuel] at h
  | succ n ih =>
    intro pts s h
    match pts with
    | [] => simp [scanFuel] at h
    | p :: rest =>
      cases hD : rest.dropWhile (fun x => x.hrot == p.hrot) with
      | nil => simp only [scanFuel, hD] at h; simp at h
      | cons qP rest2 =>
        have hne : qP.hrot ≠ p.hrot := by
          have := dropWhile_head_false (fun x => x.hrot == p.hrot) rest qP rest2 hD
          simpa using this
        cases hc : candidate circ diam gdist ql p qP with
        | some s0 =>
          simp only [scanFuel, hD, hc, List.mem_cons] at h
          rcases h with he | hm
          · exact ⟨p, qP, hne, by rw [hc, he]⟩
          · exact ih _ _ hm
        | none =>
          simp only [scanFuel, hD, hc] at h
          exact ih _ _ h

theorem mem_scan_inv {circ diam : ℚ} {gdist : ℚ → ℚ → ℚ → ℚ → ℚ}
    {ql : Option (ℤ → ℤ)} {pts : List Point} {s : SpeedSegment}
    (h : s ∈ scan circ diam gdist ql pts) :
    ∃ p q, q.hrot ≠ p.hrot ∧ candidate circ diam gdist ql p q = some s :=
  mem_scanFuel_inv _ _ _ h

/-! ### Aggregator bucket lemmas -/

theorem speedsAt_nil (k : (ℚ × ℚ) × (ℚ × ℚ)) : speedsAt k [] = [] := rfl

theorem speedsAt_cons (k : (ℚ × ℚ) × (ℚ × ℚ)) (b : Bucket) (bs : List Bucket) :
    speedsAt k (b :: bs) = if b.key = k then b.speeds else speedsAt k bs := by
  by_cases hk : b.key = k
  · rw [if_pos hk]
    unfold speedsAt
    rw [List.find?_cons_of_pos _ (by simpa using hk)]
  · rw [if_neg hk]
    unfold speedsAt
    rw [List.find?_cons_of_neg _ (by simpa using hk)]

theorem speedsAt_insert (k k' : (ℚ × ℚ) × (ℚ × ℚ)) (cs : List (ℚ × ℚ)) (v : ℚ) :
    ∀ bs : List Bucket,
      speedsAt k (insertSample k' cs v bs) =
        if k = k' then speedsAt k bs ++ [v] else speedsAt k bs := by
  intro bs
  induction bs with
  | nil =>
    by_cases hk : k = k'
    · subst hk
      simp [insertSample, speedsAt_cons, speedsAt_nil]
    · have hne : ¬ ((⟨k', cs, [v]⟩ : Bucket).key = k) := fun hc => hk hc.symm
      simp [insertSample, speedsAt_cons, speedsAt_nil, hk, hne]
  | cons b bs ih =>
    simp only [insertSample]
    by_cases hb : b.key = k'
    · rw [if_pos hb]
      by_cases hk : k = k'
      · subst hk
        simp [speedsAt_cons, hb]
      · have hbk : ¬ (b.key = k) := fun hc => hk (by rw [← hc, hb])
        simp [speedsAt_cons, hbk, hk]
    · rw [if_neg hb]
      rw [speedsAt_cons]
      by_cases hbk : b.key = k
      · rw [if_pos hbk]
        have hk : ¬ k = k' := fun hc => hb (hbk.trans hc)
        rw [if_neg hk, speedsAt_cons, if_pos hbk]
      · rw [if_neg hbk, ih]
        by_cases hk : k = k'
        · rw [if_pos hk, if_pos hk, speedsAt_cons, if_neg hbk]
        · rw [if_neg hk, if_neg hk, speedsAt_cons, if_neg hbk]

theorem speedsOf_nil (k : (ℚ × ℚ) × (ℚ × ℚ)) : speedsOf k [] = [] := rfl

theorem speedsOf_cons (k : (ℚ × ℚ) × (ℚ × ℚ)) (s : SegIn) (rest : List SegIn) :
    speedsOf k (s :: rest) =
      if contributes s = true ∧ create_segment_key s.coords = k then
        s.speed :: speedsOf k rest
      else speedsOf k rest := by
  unfold speedsOf
  rw [List.filterMap_cons]
  split_ifs with h <;> rfl

theorem speedsAt_collectAux (k : (ℚ × ℚ) × (ℚ × ℚ)) :
    ∀ (l : List SegIn) (acc : List Bucket),
      speedsAt k (collectAux acc l) = speedsAt k acc ++ speedsOf k l := by
  intro l
  induction l with
  | nil => intro acc; simp [collectAux, speedsOf_nil]
  | cons s rest ih =>
    intro acc
    simp only [collectAux]
    rw [speedsOf_cons]
    by_cases hc : contributes s = true
    · rw [if_pos hc, ih, speedsAt_insert]
      by_cases hk : create_segment_key s.coords = k
      · subst hk
        rw [if_pos rfl, if_pos ⟨hc, rfl⟩]
        simp
      · rw [if_neg (fun hx : k = _ => hk hx.symm), if_neg (fun hx => hk hx.2)]
    · rw [if_neg hc, ih, if_neg (fun hx => hc hx.1)]

theorem speedsAt_collect (k : (ℚ × ℚ) × (ℚ × ℚ)) (l : List SegIn) :
    speedsAt k (collect l) = speedsOf k l := by
  unfold collect
  rw [speedsAt_collectAux, speedsAt_nil, List.nil_append]

theorem mem_insertSample_good {k : (ℚ × ℚ) × (ℚ × ℚ)} {cs : List (ℚ × ℚ)} {v : ℚ}
    (hcs : create_segment_key cs = k) :
    ∀ bs : List Bucket, (∀ b ∈ bs, goodBucket b) →
      ∀ b ∈ insertSample k cs v bs, goodBucket b := by
  intro bs
  induction bs with
  | nil =>
    intro _ b hb
    simp only [insertSample, List.mem_singleton] at hb
    subst hb
    exact ⟨hcs, by simp⟩
  | cons b0 bs ih =>
    intro hall b hb
    simp only [insertSample] at hb
    by_cases h0 : b0.key = k
    · rw [if_pos h0] at hb
      rcases List.mem_cons.mp hb with he | hm
      · subst he
        have hg := hall b0 (List.mem_cons_self _ _)
        exact ⟨hg.1, by simp⟩
      · exact hall b (List.mem_cons_of_mem _ hm)
    · rw [if_neg h0] at hb
      rcases List.mem_cons.mp hb with he | hm
      · subst he
        exact hall b (List.mem_cons_self _ _)
      · exact ih (fun x hx => hall x (List.mem_cons_of_mem _ hx)) b hm

theorem mem_collectAux_good :
    ∀ (l : List SegIn) (acc : List Bucket), (∀ b ∈ acc, goodBucket b) →
      ∀ b ∈ collectAux acc l, goodBucket b := by
  intro l
  induction l with
  | nil => intro acc hacc b hb; exact hacc b hb
  | cons s rest ih =>
    intro acc hacc b hb
    simp only [collectAux] at hb
    by_cases hc : contributes s = true
    · rw [if_pos hc] at hb
      exact ih _ (mem_insertSample_good rfl acc hacc) b hb
    · rw [if_neg hc] at hb
      exact ih _ hacc b hb

theorem mem_collect_good {l : List SegIn} {b : Bucket} (hb : b ∈ collect l) :
    goodBucket b :=
  mem_collectAux_good l [] (by simp) b hb

theorem bkeys_cons (b : Bucket) (bs : List Bucket) :
    bkeys (b :: bs) = b.key :: bkeys bs := rfl

theorem bkeys_insert (k : (ℚ × ℚ) × (ℚ × ℚ)) (cs : List (ℚ × ℚ)) (v : ℚ) :
    ∀ bs : List Bucket,
      bkeys (insertSample k cs v bs) =
        if k ∈ bkeys bs then bkeys bs else bkeys bs ++ [k] := by
  intro bs
  induction bs with
  | nil => simp [insertSample, bkeys]
  | cons b bs ih =>
    simp only [insertSample]
    by_cases hb : b.key = k
    · rw [if_pos hb]
      have hmem : k ∈ bkeys (b :: bs) := by
        rw [bkeys_cons]
        exact List.mem_cons.mpr (Or.inl hb.symm)
      rw [if_pos hmem, bkeys_cons, bkeys_cons]
    · rw [if_neg hb, bkeys_cons, bkeys_cons, ih]
      by_cases hk : k ∈ bkeys bs
      · rw [if_pos hk]
        have hmem : k ∈ b.key :: bkeys bs := List.mem_cons_of_mem _ hk
        rw [if_pos hmem]
      · rw [if_neg hk]
        have hmem : ¬ k ∈ b.key :: bkeys bs := by
          rw [List.mem_cons]
          push_neg
          exact ⟨fun hc => hb hc.symm, hk⟩
        rw [if_neg hmem]
        rfl

theorem bkeys_insert_nodup {k : (ℚ × ℚ) × (ℚ × ℚ)} {cs : List (ℚ × ℚ)} {v : ℚ}
    {bs : List Bucket} (h : (bkeys bs).Nodup) :
    (bkeys (insertSample k cs v bs)).Nodup := by
  rw [bkeys_insert]
  split_ifs with hk
  · exact h
  · simp [List.nodup_append, h, hk]

theorem bkeys_collectAux_nodup :
    ∀ (l : List SegIn) (acc : List Bucket), (bkeys acc).Nodup →
      (bkeys (collectAux acc l)).Nodup := by
  intro l
  induction l with
  | nil => intro acc h; exact h
  | cons s rest ih =>
    intro acc h
    simp only [collectAux]
    split_ifs with hc
    · exact ih _ (bkeys_insert_nodup h)
    · exact ih _ h

theorem bkeys_collect_nodup (l : List SegIn) : (bkeys (collect l)).Nodup :=
  bkeys_collectAux_nodup l [] (by simp [bkeys])

theorem find_of_mem_nodup {b : Bucket} :
    ∀ bs : List Bucket, (bkeys bs).Nodup → b ∈ bs →
      bs.find? (fun x => decide (x.key = b.key)) = some b := by
  intro bs
  induction bs with
  | nil => intro _ h; simp at h
  | cons b0 bs ih =>
    intro hnd hb
    rw [bkeys_cons] at hnd
    have h1 := (List.nodup_cons.mp hnd).1
    have h2 := (List.nodup_cons.mp hnd).2
    rcases List.mem_cons.mp hb with he | hm
    · subst he
      exact List.find?_cons_of_pos _ (by simp)
    · have hkm : b.key ∈ bkeys bs := by
        unfold bkeys
        exact List.mem_map.mpr ⟨b, hm, rfl⟩
      have hne : ¬ b0.key = b.key := fun hc => h1 (by rw [hc]; exact hkm)
      rw [List.find?_cons_of_neg _ (by simpa using hne)]
      exact ih h2 hm

theorem mem_collect_speeds {l : List SegIn} {b : Bucket} (hb : b ∈ collect l) :
    b.speeds = speedsOf b.key l := by
  have hf := find_of_mem_nodup (collect l) (bkeys_collect_nodup l) hb
  have hsp : speedsAt b.key (collect l) = b.speeds := by
    unfold speedsAt
    rw [hf]
  rw [← hsp, speedsAt_collect]

theorem exists_mem_collect {l : List SegIn} {k : (ℚ × ℚ) × (ℚ × ℚ)}
    (h : speedsOf k l ≠ []) : ∃ b ∈ collect l, b.key = k := by
  have h1 : speedsAt k (collect l) = speedsOf k l := speedsAt_collect k l
  unfold speedsAt at h1
  cases hf : (collect l).find? (fun x => decide (x.key = k)) with
  | none => rw [hf] at h1; exact absurd h1.symm h
  | some b =>
    rw [hf] at h1
    refine ⟨b, List.mem_of_find?_eq_some hf, ?_⟩
    have := List.find?_some hf
    simpa using this

theorem mem_aggregate_iff {l : List SegIn} {f : AggFeature} :
    f ∈ aggregate_route_speeds l ↔
      ∃ b ∈ collect l, 2 ≤ b.speeds.length ∧ f = mkFeature b := by
  unfold aggregate_route_speeds
  rw [List.mem_filterMap]
  constructor
  · rintro ⟨b, hb, hsome⟩
    split_ifs at hsome with hlen
    exact ⟨b, hb, by omega, ((Option.some_inj).mp hsome).symm⟩
  · rintro ⟨b, hb, hlen, hf⟩
    refine ⟨b, hb, ?_⟩
    rw [if_neg (by omega), hf]

/-! ### Sorting, argmin and pair-ordering lemmas -/

theorem sortSpeeds_sorted (l : List ℚ) : List.Sorted (· ≤ ·) (sortSpeeds l) :=
  List.sorted_insertionSort _ l

theorem sortSpeeds_length (l : List ℚ) : (sortSpeeds l).length = l.length :=
  List.length_insertionSort _ l

theorem sorted_getD_mono {l : List ℚ} (hs : List.Sorted (· ≤ ·) l) {i j : ℕ}
    (hij : i ≤ j) (hj : j < l.length) : l.getD i 0 ≤ l.getD j 0 := by
  rcases eq_or_lt_of_le hij with he | hlt
  · subst he; exact le_rfl
  · have hi : i < l.length := lt_trans hlt hj
    rw [List.getD_eq_getElem l 0 hi, List.getD_eq_getElem l 0 hj]
    exact hs.rel_get_of_lt (Fin.mk_lt_mk.mpr hlt)

theorem argminAbs_nil (q : ℤ) : argminAbs q [] = 0 := rfl

theorem argminAbs_one (q x : ℤ) : argminAbs q [x] = 0 := rfl

theorem argminAbs_cons2 (q x y : ℤ) (ys : List ℤ) :
    argminAbs q (x :: y :: ys) =
      if |(y :: ys).getD (argminAbs q (y :: ys)) 0 - q| < |x - q| then
        argminAbs q (y :: ys) + 1
      else 0 := rfl

theorem argminAbs_lt_length (q : ℤ) :
    ∀ l : List ℤ, l ≠ [] → argminAbs q l < l.length := by
  intro l
  induction l with
  | nil => intro h; exact absurd rfl h
  | cons x xs ih =>
    intro _
    cases xs with
    | nil => rw [argminAbs_one]; simp
    | cons y ys =>
      rw [argminAbs_cons2]
      split_ifs with h
      · have hr := ih (by simp)
        simp only [List.length_cons] at hr ⊢
        omega
      · simp

theorem argminAbs_min (q : ℤ) :
    ∀ (l : List ℤ) (k : ℕ), k < l.length →
      |l.getD (argminAbs q l) 0 - q| ≤ |l.getD k 0 - q| := by
  intro l
  induction l with
  | nil => intro k hk; simp at hk
  | cons x xs ih =>
    intro k hk
    cases xs with
    | nil =>
      have hk0 : k = 0 := by simp at hk; exact hk
      subst hk0
      rw [argminAbs_one]
    | cons y ys =>
      rw [argminAbs_cons2]
      split_ifs with h
      · rw [List.getD_cons_succ]
        cases k with
        | zero => rw [List.getD_cons_zero]; exact le_of_lt h
        | succ k2 =>
          rw [List.getD_cons_succ]
          exact ih k2 (by simpa using hk)
      · rw [List.getD_cons_zero]
        have hx := not_lt.mp h
        cases k with
        | zero => rw [List.getD_cons_zero]
        | succ k2 =>
          rw [List.getD_cons_succ]
          exact le_trans hx (ih k2 (by simpa using hk))

theorem get_quality_nearest (qd : QualityData) (s : ℤ)
    (h : qd.time_windows ≠ []) :
    ∃ i, i < qd.time_windows.length ∧
      get_quality_at_sample qd s = qd.road_quality.getD i 0 ∧
      ∀ k < qd.time_windows.length,
        |qd.time_windows.getD i 0 - s| ≤ |qd.time_windows.getD k 0 - s| := by
  refine ⟨argminAbs s qd.time_windows, argminAbs_lt_length s _ h, ?_,
    fun k hk => argminAbs_min s _ k hk⟩
  unfold get_quality_at_sample
  rw [if_neg h]

theorem pairGtBool_iff {a b : ℚ × ℚ} :
    pairGtBool a b = true ↔ (b.1 < a.1 ∨ (a.1 = b.1 ∧ b.2 < a.2)) := by
  simp [pairGtBool]

theorem pairSwap_comm (a b : ℚ × ℚ) :
    (if pairGtBool a b then (b, a) else (a, b)) =
      (if pairGtBool b a then (a, b) else (b, a)) := by
  by_cases hab : pairGtBool a b = true
  · rw [if_pos hab]
    have hba : ¬ pairGtBool b a = true := by
      rw [pairGtBool_iff] at hab ⊢
      rcases hab with h | ⟨h1, h2⟩
      · rintro (hc | ⟨hc1, hc2⟩)
        · exact absurd hc (not_lt.mpr h.le)
        · exact absurd hc1 (ne_of_lt h)
      · rintro (hc | ⟨hc1, hc2⟩)
        · exact absurd hc (by rw [h1]; exact lt_irrefl _)
        · exact absurd hc2 (not_lt.mpr h2.le)
    rw [if_neg hba]
  · rw [if_neg hab]
    by_cases hba : pairGtBool b a = true
    · rw [if_pos hba]
    · rw [if_neg hba]
      rw [pairGtBool_iff] at hab hba
      push_neg at hab hba
      have h1 : a.1 = b.1 := le_antisymm hab.1 hba.1
      have h2 : a.2 = b.2 := le_antisymm (hab.2 h1) (hba.2 h1.symm)
      have hp : a = b := Prod.ext h1 h2
      rw [hp]

theorem pyRound_zero1 : pyRound 0 1 = 0 := by decide

theorem capSpeed_zero : capSpeed 0 = 0 := by decide

theorem pyRound_forty : pyRound 40 1 = 40 := by decide

theorem mkFeature_coords (b : Bucket) : (mkFeature b).coords = b.coords := rfl

theorem mkFeature_sample_count (b : Bucket) :
    (mkFeature b).sample_count = b.speeds.length := rfl

theorem mkFeature_median (b : Bucket) :
    (mkFeature b).median_speed =
      pyRound ((sortSpeeds b.speeds).getD (b.speeds.length / 2) 0) 1 := rfl

/-! ### Claim theorems -/

/-- Claim C1, amended: every SpeedSegment emitted by the segment estimator has
a non-zero wheel-rotation delta (not necessarily positive: a negative delta is
emitted with speed 0), duration strictly between 0 and 600 s, GPS displacement
at most 1000 m, final capped speed below 100 km/h, and non-identical start/end
coordinates. -/
theorem c1_segment_existence_amended {circ diam : ℚ}
    {gdist : ℚ → ℚ → ℚ → ℚ → ℚ} {ql : Option (ℤ → ℤ)} {pts : List Point}
    {s : SpeedSegment} (h : s ∈ scan circ diam gdist ql pts) :
    ∃ p q : Point, candidate circ diam gdist ql p q = some s ∧
      s.hrot_diff ≠ 0 ∧
      (s.hrot_diff < 0 → s.speed = 0) ∧
      0 < segDuration p q ∧ segDuration p q ≤ 600 ∧
      gdist p.lon p.lat q.lon q.lat ≤ 1000 ∧
      capSpeed (rawSpeed circ s.hrot_diff (segDuration p q)) < 100 ∧
      (s.startLon ≠ s.endLon ∨ s.startLat ≠ s.endLat) := by
  obtain ⟨p, q, hne, hcand⟩ := mem_scan_inv h
  obtain ⟨h1, h2, h3, h4, h5, heq⟩ := candidate_inv hcand
  subst heq
  refine ⟨p, q, hcand, sub_ne_zero.mpr hne, ?_, h1, h2, h3, h5, h4⟩
  show q.hrot - p.hrot < 0 →
    pyRound (capSpeed (rawSpeed circ (q.hrot - p.hrot) (segDuration p q))) 1 = 0
  intro hneg
  rw [rawSpeed_eq_zero (Or.inl (le_of_lt hneg)), capSpeed_zero, pyRound_zero1]

/-- Claim C1, counterexample: a two-point trip whose rotation counter moves
backwards (10 to 8) emits a segment with rotation delta -2, refuting the
claim's condition "wheel-rotation delta > 0" for emitted segments. -/
theorem c1_counterexample :
    ¬ (∀ s ∈ scan (25 / 2) 711 gdist0 none [pA2, pB2], 0 < s.hrot_diff) := by
  decide

/-- Claim C1, witness: the amended theorem applied to the concrete emitted
segment of the trip `[pA, pB]`. -/
theorem c1_witness :
    demoSeg ∈ scan (25 / 2) 711 gdist0 none [pA, pB] ∧
    (∃ p q : Point, candidate (25 / 2) 711 gdist0 none p q = some demoSeg ∧
      demoSeg.hrot_diff ≠ 0 ∧
      (demoSeg.hrot_diff < 0 → demoSeg.speed = 0) ∧
      0 < segDuration p q ∧ segDuration p q ≤ 600 ∧
      gdist0 p.lon p.lat q.lon q.lat ≤ 1000 ∧
      capSpeed (rawSpeed (25 / 2) demoSeg.hrot_diff (segDuration p q)) < 100 ∧
      (demoSeg.startLon ≠ demoSeg.endLon ∨ demoSeg.startLat ≠ demoSeg.endLat)) :=
  ⟨by decide, c1_segment_existence_amended
    (show demoSeg ∈ scan (25 / 2) 711 gdist0 none [pA, pB] from by decide)⟩

/-- Claim C2: the estimator never emits a segment whose elapsed duration is
non-positive or above 600 s, whose GPS displacement exceeds 1000 m, or whose
final capped speed is at least 100 km/h; rejected candidates merely advance
the scan (the recursion continues from the candidate's end point by
construction of `scanFuel`). -/
theorem c2_no_invalid_emission {circ diam : ℚ}
    {gdist : ℚ → ℚ → ℚ → ℚ → ℚ} {ql : Option (ℤ → ℤ)} {pts : List Point}
    {s : SpeedSegment} (h : s ∈ scan circ diam gdist ql pts) :
    ∃ p q : Point, candidate circ diam gdist ql p q = some s ∧
      0 < segDuration p q ∧ segDuration p q ≤ 600 ∧
      gdist p.lon p.lat q.lon q.lat ≤ 1000 ∧
      capSpeed (rawSpeed circ (q.hrot - p.hrot) (segDuration p q)) < 100 ∧
      s.time_diff_s = pyRound (segDuration p q) 3 ∧
      s.gps_distance_m = pyRound (gdist p.lon p.lat q.lon q.lat) 1 ∧
      s.speed < 100 := by
  obtain ⟨p, q, hne, hcand⟩ := mem_scan_inv h
  obtain ⟨h1, h2, h3, h4, h5, heq⟩ := candidate_inv hcand
  subst heq
  refine ⟨p, q, hcand, h1, h2, h3, h5, rfl, rfl, ?_⟩
  calc pyRound (capSpeed (rawSpeed circ (q.hrot - p.hrot) (segDuration p q))) 1
      ≤ 40 := pyRound1_le_40 (capSpeed_le_40 _)
    _ < 100 := by norm_num

/-- Claim C2, witness: the theorem applied to the concrete emitted segment of
the trip `[pA, pB]`. -/
theorem c2_witness :
    demoSeg ∈ scan (25 / 2) 711 gdist0 none [pA, pB] ∧
    (∃ p q : Point, candidate (25 / 2) 711 gdist0 none p q = some demoSeg ∧
      0 < segDuration p q ∧ segDuration p q ≤ 600 ∧
      gdist0 p.lon p.lat q.lon q.lat ≤ 1000 ∧
      capSpeed (rawSpeed (25 / 2) (q.hrot - p.hrot) (segDuration p q)) < 100 ∧
      demoSeg.time_diff_s = pyRound (segDuration p q) 3 ∧
      demoSeg.gps_distance_m = pyRound (gdist0 p.lon p.lat q.lon q.lat) 1 ∧
      demoSeg.speed < 100) :=
  ⟨by decide, c2_no_invalid_emission
    (show demoSeg ∈ scan (25 / 2) 711 gdist0 none [pA, pB] from by decide)⟩

/-- Claim C3: a candidate whose raw computed speed exceeds 40 km/h and whose
other fields are valid is not discarded: it is emitted with speed exactly
40.0 (the cap applies before the below-100 emission check). -/
theorem c3_cap_before_emission {circ diam : ℚ}
    {gdist : ℚ → ℚ → ℚ → ℚ → ℚ} {ql : Option (ℤ → ℤ)} {p q : Point}
    (h1 : 0 < segDuration p q) (h2 : segDuration p q ≤ 600)
    (h3 : 40 < rawSpeed circ (q.hrot - p.hrot) (segDuration p q))
    (h4 : gdist p.lon p.lat q.lon q.lat ≤ 1000)
    (h5 : p.lon ≠ q.lon ∨ p.lat ≠ q.lat) :
    ∃ s, candidate circ diam gdist ql p q = some s ∧ s.speed = 40 := by
  have hcap : capSpeed (rawSpeed circ (q.hrot - p.hrot) (segDuration p q)) = 40 := by
    unfold capSpeed
    rw [if_pos h3]
  have hc : candidate circ diam gdist ql p q = some
      { startLon := p.lon, startLat := p.lat, endLon := q.lon, endLat := q.lat,
        speed := pyRound (capSpeed (rawSpeed circ (q.hrot - p.hrot) (segDuration p q))) 1,
        road_quality := qlValue ql ((p.samples + q.samples).fdiv 2),
        marker := p.marker, hrot_diff := q.hrot - p.hrot,
        sample_diff := q.samples - p.samples,
        time_diff_s := pyRound (segDuration p q) 3,
        gps_distance_m := pyRound (gdist p.lon p.lat q.lon q.lat) 1,
        original_speed := p.original_speed, wheel_diameter_mm := diam } := by
    simp only [candidate]
    rw [if_neg (by push_neg; exact ⟨h1, h2⟩), if_neg (not_lt.mpr h4),
      if_pos ⟨h5, by rw [hcap]; norm_num⟩]
  refine ⟨_, hc, ?_⟩
  show pyRound (capSpeed (rawSpeed circ (q.hrot - p.hrot) (segDuration p q))) 1 = 40
  rw [hcap, pyRound_forty]

/-- Claim C3, witness: with circumference 12.5 m the trip `[pA, pB]` has raw
speed exactly 45 km/h over 1 s, and the candidate is emitted with speed
40.0. -/
theorem c3_witness :
    rawSpeed (25 / 2) (pB.hrot - pA.hrot) (segDuration pA pB) = 45 ∧
    0 < segDuration pA pB ∧ segDuration pA pB ≤ 600 ∧
    40 < rawSpeed (25 / 2) (pB.hrot - pA.hrot) (segDuration pA pB) ∧
    gdist0 pA.lon pA.lat pB.lon pB.lat ≤ 1000 ∧
    (pA.lon ≠ pB.lon ∨ pA.lat ≠ pB.lat) ∧
    (∃ s, candidate (25 / 2) 711 gdist0 none pA pB = some s ∧ s.speed = 40) :=
  ⟨by decide, by decide, by decide, by decide, by decide, by decide,
    c3_cap_before_emission (by decide) (by decide) (by decide) (by decide)
      (by decide)⟩

/-- Claim C4: `create_segment_key` is invariant under reversing the
coordinate list — a segment traveled in either direction lands in the same
bucket after rounding both endpoints to 4 decimals and ordering the rounded
pair. -/
theorem c4_key_reverse_invariant (coords : List (ℚ × ℚ)) :
    create_segment_key coords.reverse = create_segment_key coords := by
  have h1 : coords.reverse.headD ((0 : ℚ), (0 : ℚ)) = coords.getLastD (0, 0) := by
    rw [List.headD_eq_head?_getD, List.head?_reverse, List.getLastD_eq_getLast?]
  have h2 : coords.reverse.getLastD ((0 : ℚ), (0 : ℚ)) = coords.headD (0, 0) := by
    rw [List.getLastD_eq_getLast?, List.getLast?_reverse, List.headD_eq_head?_getD]
  simp only [create_segment_key]
  rw [h1, h2]
  exact pairSwap_comm _ _

/-- Claim C5: a bucket reaches the aggregator's final output exactly when it
accumulated at least two contributing (non-zero-speed, LineString) samples;
concretely, one sample is excluded and two samples are included. -/
theorem c5_retention_iff :
    (∀ (l : List SegIn) (k : (ℚ × ℚ) × (ℚ × ℚ)),
        (∃ f ∈ aggregate_route_speeds l, create_segment_key f.coords = k) ↔
          2 ≤ (speedsOf k l).length) ∧
    aggregate_route_speeds demoOne = [] ∧
    (aggregate_route_speeds demoTwo).map (fun f => f.sample_count) = [2] := by
  refine ⟨?_, by decide, by decide⟩
  intro l k
  constructor
  · rintro ⟨f, hf, hk⟩
    obtain ⟨b, hb, hlen, hfeq⟩ := mem_aggregate_iff.mp hf
    have hg := mem_collect_good hb
    have hcoords : f.coords = b.coords := by rw [hfeq, mkFeature_coords]
    have hbk : b.key = k := by
      rw [← hg.1, ← hcoords]
      exact hk
    rw [← hbk, ← mem_collect_speeds hb]
    exact hlen
  · intro hlen
    have hne : speedsOf k l ≠ [] := by
      intro hc
      rw [hc] at hlen
      simp at hlen
    obtain ⟨b, hb, hbk⟩ := exists_mem_collect hne
    have hsp := mem_collect_speeds hb
    have hblen : 2 ≤ b.speeds.length := by
      rw [hsp, hbk]
      exact hlen
    refine ⟨mkFeature b, mem_aggregate_iff.mpr ⟨b, hb, hblen, rfl⟩, ?_⟩
    have hg := mem_collect_good hb
    rw [mkFeature_coords, hg.1]
    exact hbk

/-- Claim C6, amended: every retained bucket's reported median equals the
element at index n / 2 (integer division) of the sorted speed list, which for
even n is the upper-median convention — the larger of the two middle
elements, as the final inequality between indices n / 2 - 1 and n / 2
records — not the lower median the claim describes. -/
theorem c6_median_upper_amended {l : List SegIn} {f : AggFeature}
    (h : f ∈ aggregate_route_speeds l) :
    ∃ k, 2 ≤ (speedsOf k l).length ∧
      f.sample_count = (speedsOf k l).length ∧
      f.median_speed =
        pyRound ((sortSpeeds (speedsOf k l)).getD ((speedsOf k l).length / 2) 0) 1 ∧
      (sortSpeeds (speedsOf k l)).getD ((speedsOf k l).length / 2 - 1) 0 ≤
        (sortSpeeds (speedsOf k l)).getD ((speedsOf k l).length / 2) 0 := by
  obtain ⟨b, hb, hlen, hfeq⟩ := mem_aggregate_iff.mp h
  have hsp := mem_collect_speeds hb
  refine ⟨b.key, ?_, ?_, ?_, ?_⟩
  · rw [← hsp]
    exact hlen
  · rw [hfeq, mkFeature_sample_count, ← hsp]
  · rw [hfeq, mkFeature_median, ← hsp]
  · rw [← hsp]
    have hs := sortSpeeds_sorted b.speeds
    have hlb : (sortSpeeds b.speeds).length = b.speeds.length := sortSpeeds_length _
    apply sorted_getD_mono hs
    · omega
    · rw [hlb]
      omega

/-- Claim C6, counterexample: a bucket with speeds 10 and 20 (even count) is
reported with median 20, the larger of the two middle elements, while the
claim's lower-median convention would give 10. -/
theorem c6_counterexample :
    (aggregate_route_speeds demoTwo).map (fun f => f.median_speed) = [20] ∧
    pyRound (lowerMedianSpec [(10 : ℚ), 20]) 1 = 10 ∧ ((20 : ℚ) ≠ 10) := by
  refine ⟨by decide, by decide, by decide⟩

/-- Claim C6, witness: the amended theorem applied to the single feature
aggregated from `demoTwo`. -/
theorem c6_witness :
    demoAggFeature ∈ aggregate_route_speeds demoTwo ∧
    (∃ k, 2 ≤ (speedsOf k demoTwo).length ∧
      demoAggFeature.sample_count = (speedsOf k demoTwo).length ∧
      demoAggFeature.median_speed =
        pyRound ((sortSpeeds (speedsOf k demoTwo)).getD
          ((speedsOf k demoTwo).length / 2) 0) 1 ∧
      (sortSpeeds (speedsOf k demoTwo)).getD
          ((speedsOf k demoTwo).length / 2 - 1) 0 ≤
        (sortSpeeds (speedsOf k demoTwo)).getD
          ((speedsOf k demoTwo).length / 2) 0) :=
  ⟨by decide, c6_median_upper_amended
    (show demoAggFeature ∈ aggregate_route_speeds demoTwo from by decide)⟩

/-- Claim C7: the quality mapper returns the level of a window whose
representative index minimises the absolute difference to the query (first
conjunct); windows 50/150/250 with levels 1/3/5 queried at 120 give level 3
(second conjunct); a segment built with a quality lookup reads it at the
midpoint sample index (third conjunct); and with no quality data every
emitted segment carries the unknown sentinel 0 (fourth conjunct). -/
theorem c7_quality_mapper :
    (∀ (qd : QualityData) (s : ℤ), qd.time_windows ≠ [] →
        ∃ i, i < qd.time_windows.length ∧
          get_quality_at_sample qd s = qd.road_quality.getD i 0 ∧
          ∀ k < qd.time_windows.length,
            |qd.time_windows.getD i 0 - s| ≤ |qd.time_windows.getD k 0 - s|) ∧
    get_quality_at_sample demoQD 120 = 3 ∧
    (∀ (circ diam : ℚ) (gdist : ℚ → ℚ → ℚ → ℚ → ℚ) (f : ℤ → ℤ)
        (p q : Point) (s : SpeedSegment),
        candidate circ diam gdist (some f) p q = some s →
        s.road_quality = f ((p.samples + q.samples).fdiv 2)) ∧
    (∀ (circ diam : ℚ) (gdist : ℚ → ℚ → ℚ → ℚ → ℚ) (pts : List Point)
        (s : SpeedSegment), s ∈ scan circ diam gdist none pts →
        s.road_quality = 0) := by
  refine ⟨fun qd s h => get_quality_nearest qd s h, by decide, ?_, ?_⟩
  · intro circ diam gdist f p q s hc
    obtain ⟨_, _, _, _, _, heq⟩ := candidate_inv hc
    subst heq
    rfl
  · intro circ diam gdist pts s hs
    obtain ⟨p, q, hne, hc⟩ := mem_scan_inv hs
    obtain ⟨_, _, _, _, _, heq⟩ := candidate_inv hc
    subst heq
    rfl

/-- Claim C7, witness: the nearest-window conjunct applied to the concrete
windows 50/150/250 queried at sample index 120. -/
theorem c7_witness :
    demoQD.time_windows ≠ [] ∧
    (∃ i, i < demoQD.time_windows.length ∧
      get_quality_at_sample demoQD 120 = demoQD.road_quality.getD i 0 ∧
      ∀ k < demoQD.time_windows.length,
        |demoQD.time_windows.getD i 0 - 120| ≤
          |demoQD.time_windows.getD k 0 - 120|) :=
  ⟨by decide, c7_quality_mapper.1 demoQD 120 (by decide)⟩

/-- Claim C8: wheel-diameter resolution is total and follows the documented
precedence — a parseable current-file value wins over any saved state
("26.0 inch" gives 26 × 25.4 = 660.4 mm), otherwise the saved trip value
(bare 650 read as millimetres; the flat shape checked before the nested
shape), otherwise the fixed default 711 mm. -/
theorem c8_wheel_diameter_precedence :
    (∀ sv : Option SavedEntry, get_wheel_diameter fm26 sv = 6604 / 10) ∧
    get_wheel_diameter fmEmpty (some (.isDict tmFlat650)) = 650 ∧
    get_wheel_diameter fmEmpty (some (.isDict tmBoth)) = 650 ∧
    get_wheel_diameter fmEmpty (some (.isDict tmNested700)) = 700 ∧
    get_wheel_diameter fmEmpty (some .notDict) = 711 ∧
    get_wheel_diameter fmEmpty none = 711 :=
  ⟨fun sv => rfl, by decide, by decide, by decide, by decide, by decide⟩

/-- Claim C9: with at most 200 acceleration samples the scorer gate yields no
quality data (the external scorer is never consulted) and every segment the
pipeline emits carries road quality 0. -/
theorem c9_insufficient_acc_data {diam : ℚ} {gdist : ℚ → ℚ → ℚ → ℚ → ℚ}
    {acc : List ℚ} {scorer : List ℚ → Option QualityData} {pts : List Point}
    (h : acc.length ≤ 200) :
    mkRoadQualityData acc scorer = none ∧
    ∀ s ∈ processTripSegments diam gdist acc scorer pts, s.road_quality = 0 := by
  have hg : mkRoadQualityData acc scorer = none := by
    unfold mkRoadQualityData
    rw [if_neg (by omega)]
  refine ⟨hg, ?_⟩
  intro s hs
  simp only [processTripSegments] at hs
  rw [hg] at hs
  simp only [Option.map_none'] at hs
  obtain ⟨p, q, hne, hc⟩ := mem_scan_inv hs
  obtain ⟨_, _, _, _, _, heq⟩ := candidate_inv hc
  subst heq
  rfl

/-- Claim C9, witness: a 3-sample acceleration channel with a scorer that
would report data; the gate returns none and the emitted segments of
`[pA, pB]` all carry quality 0. -/
theorem c9_witness :
    accSmall.length ≤ 200 ∧
    (mkRoadQualityData accSmall scorerDemo = none ∧
      ∀ s ∈ processTripSegments 711 gdist0 accSmall scorerDemo [pA, pB],
        s.road_quality = 0) :=
  ⟨by decide, c9_insufficient_acc_data (by decide)⟩

/-- Claim C10: with a positive wheel circumference every emitted Speed
property lies in [0, 40] km/h; the raw speed is 0 exactly when the rotation
delta or duration is non-positive and positive otherwise; and the capped
speed is below 100 km/h for every input, so the below-100 emission guard can
never reject a candidate. -/
theorem c10_speed_bounds :
    (∀ (circ diam : ℚ) (gdist : ℚ → ℚ → ℚ → ℚ → ℚ) (ql : Option (ℤ → ℤ))
        (pts : List Point), 0 < circ →
        ∀ s ∈ scan circ diam gdist ql pts, 0 ≤ s.speed ∧ s.speed ≤ 40) ∧
    (∀ (circ : ℚ) (hd : ℤ) (td : ℚ), hd ≤ 0 ∨ td ≤ 0 →
        rawSpeed circ hd td = 0) ∧
    (∀ (circ : ℚ) (hd : ℤ) (td : ℚ), 0 < circ → 0 < hd → 0 < td →
        0 < rawSpeed circ hd td) ∧
    (∀ x : ℚ, capSpeed x < 100) := by
  refine ⟨?_, fun circ hd td hle => rawSpeed_eq_zero hle,
    fun circ hd td hc hh ht => rawSpeed_pos hc hh ht, capSpeed_lt_100⟩
  intro circ diam gdist ql pts hc s hs
  obtain ⟨p, q, hne, hcand⟩ := mem_scan_inv hs
  obtain ⟨h1, h2, h3, h4, h5, heq⟩ := candidate_inv hcand
  subst heq
  constructor
  · exact pyRound1_nonneg (capSpeed_nonneg (rawSpeed_nonneg hc _ _))
  · exact pyRound1_le_40 (capSpeed_le_40 _)

/-- Claim C10, witness: the Speed-range conjunct applied to the concrete trip
`[pA, pB]` with circumference 12.5 m. -/
theorem c10_witness :
    (0 : ℚ) < 25 / 2 ∧
    ∀ s ∈ scan (25 / 2) 711 gdist0 none [pA, pB], 0 ≤ s.speed ∧ s.speed ≤ 40 :=
  ⟨by decide, c10_speed_bounds.1 (25 / 2) 711 gdist0 none [pA, pB] (by decide)⟩
